import Mathlib

/-!
Verification of the bisection bug-search tool
(`tools/bisection-search/bisection-search.py` and
`tools/bisection-search/common.py`).

The pure algorithmic core (`BinarySearch`, `FilterPasses`, the probe
classification in `Dex2OatWrapperTestable.Test`, the diagnostic-output
scraping of `GetAllMethods` / `GetAllPassesForMethod`, and the two-stage
`BugSearch` driver) is embedded as executable Lean functions.  The
execution environment is abstracted as a deterministic oracle
`run : Option (List String) → Option (List String) → String × String × Int`
mapping the two command-shaping arguments of `_PrepareCmd`
(`compiled_methods`, `passes_to_run`) to the `(stdout, stderr, exit code)`
triple that `ITestEnv.RunCommand` would produce for the prepared command.
Side-effect ordering inside `RunCommand` (cache invalidation before
execution) is embedded as an explicit event trace.
-/

/-- Passes which are always run in order for compilation to complete
successfully (`MANDATORY_PASSES` in bisection-search.py). -/
def MANDATORY_PASSES : List String :=
  ["dex_cache_array_fixups_arm",
   "dex_cache_array_fixups_mips",
   "instruction_simplifier$before_codegen",
   "pc_relative_fixups_x86",
   "pc_relative_fixups_mips",
   "x86_memory_operand_generation"]

/-- Passes which are not optimizations (`NON_PASSES` in bisection-search.py). -/
def NON_PASSES : List String :=
  ["builder", "prepare_for_register_allocation", "liveness", "register"]

/-- One-step body of the `while start < end` loop of
`BinarySearch(start, end, test)` from bisection-search.py, iterated on an
explicit fuel counter; `mid` is `(start + end) // 2`.  Each loop iteration
strictly shrinks `end - start`, so fuel `end - start` is exactly enough
(theorem `binarySearchGo_fuel`), making the fueled function extensionally
the Python loop. -/
def BinarySearchGo (test : Nat → Bool) : Nat → Nat → Nat → Nat
  | 0, start, _ => start
  | fuel + 1, start, end_ =>
    if start < end_ then
      if test ((start + end_) / 2) then BinarySearchGo test fuel ((start + end_) / 2 + 1) end_
      else BinarySearchGo test fuel start ((start + end_) / 2)
    else start

/-- `BinarySearch(start, end, test)` from bisection-search.py: binary
search on integers guided by `test`. -/
def BinarySearch (start end_ : Nat) (test : Nat → Bool) : Nat :=
  BinarySearchGo test (end_ - start) start end_

/-- Fueled body of the instrumented variant of `BinarySearch` that
additionally records the list of indices at which the predicate is
invoked, in invocation order. -/
def BinarySearchProbesGo (test : Nat → Bool) : Nat → Nat → Nat → Nat × List Nat
  | 0, start, _ => (start, [])
  | fuel + 1, start, end_ =>
    if start < end_ then
      if test ((start + end_) / 2) then
        ((BinarySearchProbesGo test fuel ((start + end_) / 2 + 1) end_).1,
         (start + end_) / 2 :: (BinarySearchProbesGo test fuel ((start + end_) / 2 + 1) end_).2)
      else
        ((BinarySearchProbesGo test fuel start ((start + end_) / 2)).1,
         (start + end_) / 2 :: (BinarySearchProbesGo test fuel start ((start + end_) / 2)).2)
    else (start, [])

/-- Instrumented variant of `BinarySearch`: same search, but also returns
the list of probed indices.  The first component coincides with
`BinarySearch` (theorem `binarySearchProbes_fst`). -/
def BinarySearchProbes (start end_ : Nat) (test : Nat → Bool) : Nat × List Nat :=
  BinarySearchProbesGo test (end_ - start) start end_

/-- `FilterPasses(passes, cutoff_idx)` from bisection-search.py: keeps a
pass when it is mandatory or its index is below the cutoff, preserving
order (the Python list comprehension over `enumerate(passes)`). -/
def FilterPasses (passes : List String) (cutoff_idx : Nat) : List String :=
  ((passes.enum.filter
      (fun ip => MANDATORY_PASSES.contains ip.2 || decide (ip.1 < cutoff_idx))).map
    Prod.snd)

/-- Helper for the regex model: tries to strip `marker` from the front of a
character list, returning the remainder on success. -/
def matchesMarker : List Char → List Char → Option (List Char)
  | [], s => some s
  | _ :: _, [] => none
  | m :: ms, c :: cs => if c = m then matchesMarker ms cs else none

/-- Helper for the regex model: splits a character list at its first
newline, returning the (possibly empty) segment before it and the
remainder after it; `none` when there is no newline at all. -/
def splitAtNewline : List Char → Option (List Char × List Char)
  | [] => none
  | c :: cs =>
    if c = '\n' then some ([], cs)
    else
      match splitAtNewline cs with
      | none => none
      | some (cap, rest) => some (c :: cap, rest)

theorem matchesMarker_length {m s t : List Char} (h : matchesMarker m s = some t) :
    t.length ≤ s.length := by
  induction m generalizing s t with
  | nil =>
    simp only [matchesMarker, Option.some.injEq] at h
    subst h
    exact Nat.le_refl _
  | cons a ms ih =>
    cases s with
    | nil => simp [matchesMarker] at h
    | cons c cs =>
      simp only [matchesMarker] at h
      by_cases hc : c = a
      · simp only [hc, if_pos rfl] at h
        have := ih h
        simp only [List.length_cons]
        omega
      · simp [hc] at h

theorem splitAtNewline_length {s cap rest : List Char}
    (h : splitAtNewline s = some (cap, rest)) : rest.length < s.length := by
  induction s generalizing cap rest with
  | nil => simp [splitAtNewline] at h
  | cons c cs ih =>
    simp only [splitAtNewline] at h
    by_cases hc : c = '\n'
    · rw [if_pos hc] at h
      injection h with h
      injection h with h1 h2
      subst h2
      simp
    · rw [if_neg hc] at h
      match hs : splitAtNewline cs with
      | none => rw [hs] at h; exact absurd h (by simp)
      | some (cap2, rest2) =>
        rw [hs] at h
        injection h with h
        injection h with h1 h2
        subst h2
        have := ih hs
        simp only [List.length_cons]
        omega

/-- Model of Python `re.findall(marker + r"([^\n]+)\n", s)` as used by
`GetAllMethods` and `GetAllPassesForMethod`: leftmost, non-overlapping
occurrences of `marker` followed by at least one non-newline character and
a newline; the captured group is the text between `marker` and the
newline.  On a failed match the scan advances by a single character, as
the regex engine does.  Every step consumes at least one character, so
the scan is iterated on an explicit fuel counter for which the input
length is exactly enough (theorem `scanMarkerGo_fuel`). -/
def scanMarkerGo (marker : List Char) : Nat → List Char → List String
  | 0, _ => []
  | _, [] => []
  | fuel + 1, c :: cs =>
    match matchesMarker marker (c :: cs) with
    | some tail =>
      match splitAtNewline tail with
      | some (cap, rest) =>
        if cap = [] then scanMarkerGo marker fuel cs
        else String.mk cap :: scanMarkerGo marker fuel rest
      | none => scanMarkerGo marker fuel cs
    | none => scanMarkerGo marker fuel cs

/-- Scrapes all captures of `marker([^\n]+)\n` from a string. -/
def reFindallLine (marker : String) (s : String) : List String :=
  scanMarkerGo marker.data s.data.length s.data

/-- The fuel given to `scanMarkerGo` is irrelevant as long as it is at
least the length of the scanned text, so `reFindallLine` computes the
limit of the scan: the embedding loses nothing to fuel exhaustion. -/
theorem scanMarkerGo_fuel (marker : List Char) :
    ∀ fuel1 fuel2 s, s.length ≤ fuel1 → s.length ≤ fuel2 →
      scanMarkerGo marker fuel1 s = scanMarkerGo marker fuel2 s := by
  intro fuel1
  induction fuel1 with
  | zero =>
    intro fuel2 s h1 h2
    have hs : s = [] := List.eq_nil_of_length_eq_zero (by omega)
    subst hs
    cases fuel2 <;> rfl
  | succ f1 ih =>
    intro fuel2 s h1 h2
    cases s with
    | nil => cases fuel2 <;> rfl
    | cons c cs =>
      cases fuel2 with
      | zero => simp at h2
      | succ f2 =>
        simp only [List.length_cons] at h1 h2
        cases hm : matchesMarker marker (c :: cs) with
        | none =>
          simp only [scanMarkerGo, hm]
          exact ih f2 cs (by omega) (by omega)
        | some tail =>
          cases hsp : splitAtNewline tail with
          | none =>
            simp only [scanMarkerGo, hm, hsp]
            exact ih f2 cs (by omega) (by omega)
          | some pr =>
            obtain ⟨cap, rest⟩ := pr
            have hlen1 := matchesMarker_length hm
            have hlen2 := splitAtNewline_length hsp
            simp only [List.length_cons] at hlen1
            by_cases hcap : cap = []
            · simp only [scanMarkerGo, hm, hsp, if_pos hcap]
              exact ih f2 cs (by omega) (by omega)
            · simp only [scanMarkerGo, hm, hsp, if_neg hcap]
              rw [ih f2 rest (by omega) (by omega)]

/-- Abstraction of `Dex2OatWrapperTestable`: the execution environment is a
deterministic oracle `run` mapping the two command-shaping arguments of
`_PrepareCmd` (`compiled_methods` and `passes_to_run`, each `None` or a
list) to the `(stdout, stderr, exit code)` triple the environment returns
for the prepared command; `correct_output` is the optional reference
output from the constructor. -/
structure Testable where
  run : Option (List String) → Option (List String) → String × String × Int
  correct_output : Option String

/-- `Dex2OatWrapperTestable.Test`: runs the prepared command and scores it
as passing when the exit code is non-zero or the captured stdout equals
the reference output (Python `ret_code != 0 or output == self._correct_output`;
comparing a string with `None` is `False`, hence `some res.1 = t.correct_output`). -/
def Testable.Test (t : Testable) (compiled_methods passes_to_run : Option (List String)) :
    Bool :=
  let res := t.run compiled_methods passes_to_run
  decide (res.2.2 ≠ 0) || decide (some res.1 = t.correct_output)

/-- `Dex2OatWrapperTestable.GetAllMethods`: runs the unrestricted command,
scrapes `Building <method>` lines from stderr, and raises `FatalError`
(modelled as `Except.error`) when no match is found. -/
def Testable.GetAllMethods (t : Testable) : Except String (List String) :=
  let res := t.run none none
  let match_methods := reFindallLine "Building " res.2.1
  if match_methods = [] then
    Except.error "Failed to retrieve methods list. Not recognized output format."
  else Except.ok match_methods

/-- `Dex2OatWrapperTestable.GetAllPassesForMethod`: runs the command
restricted to the one method, scrapes `Starting pass: <pass>` lines from
stderr, raises `FatalError` when no match is found, and filters out
`NON_PASSES`. -/
def Testable.GetAllPassesForMethod (t : Testable) (compiled_method : String) :
    Except String (List String) :=
  let res := t.run (some [compiled_method]) none
  let match_passes := reFindallLine "Starting pass: " res.2.1
  if match_passes = [] then
    Except.error "Failed to retrieve passes list. Not recognized output format."
  else Except.ok (match_passes.filter (fun p => !NON_PASSES.contains p))

/-- Outcome of `BugSearch`: a returned `(method, pass)` pair (each side
optional, as in the Python tuple of `None`-able strings), a raised
`FatalError`, or a failed `assert`. -/
inductive BugSearchOutcome where
  | found : Option String → Option String → BugSearchOutcome
  | fatal : String → BugSearchOutcome
  | assertFail : String → BugSearchOutcome
deriving DecidableEq

/-- `BugSearch(testable)` from bisection-search.py: stage one bisects over
method-list prefixes, stage two over filtered pass lists for the
implicated method.  Exceptions raised by `GetAllMethods` and
`GetAllPassesForMethod` propagate (modelled by the `.error` branches). -/
def BugSearch (t : Testable) : BugSearchOutcome :=
  match Testable.GetAllMethods t with
  | Except.error e => BugSearchOutcome.fatal e
  | Except.ok all_methods =>
    let faulty_method_idx := BinarySearch 0 all_methods.length
        (fun mid => t.Test (some (all_methods.take mid)) none)
    if faulty_method_idx = all_methods.length then BugSearchOutcome.found none none
    else if faulty_method_idx = 0 then
      BugSearchOutcome.fatal
        "Testable fails with no methods compiled. Perhaps issue lies outside of compiler."
    else
      let faulty_method := all_methods.getD (faulty_method_idx - 1) ""
      match Testable.GetAllPassesForMethod t faulty_method with
      | Except.error e => BugSearchOutcome.fatal e
      | Except.ok all_passes =>
        let faulty_pass_idx := BinarySearch 0 all_passes.length
            (fun mid => t.Test (some [faulty_method]) (some (FilterPasses all_passes mid)))
        if faulty_pass_idx = 0 then BugSearchOutcome.found (some faulty_method) none
        else if faulty_pass_idx = all_passes.length then
          BugSearchOutcome.assertFail "Method must fail for some passes."
        else
          BugSearchOutcome.found (some faulty_method)
            (some (all_passes.getD (faulty_pass_idx - 1) ""))

/-- Events observable during `BugSearch`: the method-list retrieval, each
stage-one probe (a `Test` call on a method prefix), the pass-list
retrieval for the implicated method, and each stage-two probe (a `Test`
call on the implicated method with a filtered pass list). -/
inductive SearchEvent where
  | getMethods : SearchEvent
  | probeMethods : List String → SearchEvent
  | getPasses : String → SearchEvent
  | probePasses : String → List String → SearchEvent
deriving DecidableEq

/-- An event belongs to stage two of the search (pass-list retrieval or a
pass-restricted probe). -/
def SearchEvent.isStageTwo : SearchEvent → Bool
  | SearchEvent.getPasses _ => true
  | SearchEvent.probePasses _ _ => true
  | _ => false

/-- Instrumented `BugSearch`: same control flow, but also returns the list
of `SearchEvent`s in the order the Python code performs them.  The outcome
component coincides with `BugSearch` (theorem `bugSearchTrace_fst`). -/
def BugSearchTrace (t : Testable) : BugSearchOutcome × List SearchEvent :=
  match Testable.GetAllMethods t with
  | Except.error e => (BugSearchOutcome.fatal e, [SearchEvent.getMethods])
  | Except.ok all_methods =>
    let s1 := BinarySearchProbes 0 all_methods.length
        (fun mid => t.Test (some (all_methods.take mid)) none)
    let ev1 := SearchEvent.getMethods ::
        s1.2.map (fun i => SearchEvent.probeMethods (all_methods.take i))
    if s1.1 = all_methods.length then (BugSearchOutcome.found none none, ev1)
    else if s1.1 = 0 then
      (BugSearchOutcome.fatal
        "Testable fails with no methods compiled. Perhaps issue lies outside of compiler.",
       ev1)
    else
      let faulty_method := all_methods.getD (s1.1 - 1) ""
      match Testable.GetAllPassesForMethod t faulty_method with
      | Except.error e =>
        (BugSearchOutcome.fatal e, ev1 ++ [SearchEvent.getPasses faulty_method])
      | Except.ok all_passes =>
        let s2 := BinarySearchProbes 0 all_passes.length
            (fun mid => t.Test (some [faulty_method]) (some (FilterPasses all_passes mid)))
        let ev2 := ev1 ++ SearchEvent.getPasses faulty_method ::
            s2.2.map (fun j =>
              SearchEvent.probePasses faulty_method (FilterPasses all_passes j))
        if s2.1 = 0 then (BugSearchOutcome.found (some faulty_method) none, ev2)
        else if s2.1 = all_passes.length then
          (BugSearchOutcome.assertFail "Method must fail for some passes.", ev2)
        else
          (BugSearchOutcome.found (some faulty_method)
            (some (all_passes.getD (s2.1 - 1) "")), ev2)

/-- Actions a test environment performs inside `RunCommand`, in order:
emptying the dalvik cache (`_EmptyDexCache`) and executing a command
(`_RunCommandForOutputAndLog` on the host, the adb-wrapped invocation on
the device). -/
inductive EnvAction where
  | invalidateCache : EnvAction
  | execCommand : String → EnvAction
deriving DecidableEq

/-- Model of `HostTestEnv` (common.py): the behaviour of
`_RunCommandForOutputAndLog` in the fixed shell environment is a
deterministic oracle `exec` from the command to `(stdout, stderr, return
code)`. -/
structure HostTestEnvModel where
  exec : String → String × String × Int

/-- `HostTestEnv.RunCommand` (common.py): first `self._EmptyDexCache()`,
then `_RunCommandForOutputAndLog(cmd, ...)`.  The returned trace lists the
two actions in exactly that statement order. -/
def HostTestEnvModel.RunCommand (env : HostTestEnvModel) (cmd : String) :
    (String × String × Int) × List EnvAction :=
  (env.exec cmd, [EnvAction.invalidateCache, EnvAction.execCommand cmd])

/-- Model of `DeviceTestEnv` (common.py): `device_env_path` is the scratch
directory on the device; `exec` is the oracle for running the wrapped adb
invocation. -/
structure DeviceTestEnvModel where
  device_env_path : String
  exec : String → String × String × Int

/-- The command rewriting of `DeviceTestEnv.RunCommand`: each segment is
quoted and joined with spaces, then the whole command is wrapped into an
adb shell invocation that clears and re-dumps logcat around it. -/
def DeviceWrapCommand (device_env_path : String) (cmd : List String) : String :=
  let joined := " ".intercalate (cmd.map (fun segment => "\"" ++ segment ++ "\""))
  "adb shell \"logcat -c && ANDROID_DATA=" ++ device_env_path ++ " " ++ joined ++
    " && logcat -d dex2oat:* *:S 1>&2\""

/-- `DeviceTestEnv.RunCommand` (common.py): first `self._EmptyDexCache()`,
then the quoted-and-wrapped command is executed.  The returned trace lists
the two actions in exactly that statement order. -/
def DeviceTestEnvModel.RunCommand (env : DeviceTestEnvModel) (cmd : List String) :
    (String × String × Int) × List EnvAction :=
  (env.exec (DeviceWrapCommand env.device_env_path cmd),
   [EnvAction.invalidateCache,
    EnvAction.execCommand (DeviceWrapCommand env.device_env_path cmd)])

/-- Fuel irrelevance for the bisection loop: any fuel of at least
`end_ - start` computes the limit of the `while` loop, so `BinarySearch`
(which passes fuel `end_ - start`) is extensionally the Python loop and
the loop terminates within `end_ - start` iterations. -/
theorem binarySearchGo_fuel (test : Nat → Bool) :
    ∀ fuel1 fuel2 start end_, end_ - start ≤ fuel1 → end_ - start ≤ fuel2 →
      BinarySearchGo test fuel1 start end_ = BinarySearchGo test fuel2 start end_ := by
  intro fuel1
  induction fuel1 with
  | zero =>
    intro fuel2 start end_ h1 h2
    cases fuel2 with
    | zero => rfl
    | succ g =>
      simp only [BinarySearchGo]
      rw [if_neg (by omega)]
  | succ f ih =>
    intro fuel2 start end_ h1 h2
    cases fuel2 with
    | zero =>
      simp only [BinarySearchGo]
      rw [if_neg (by omega)]
    | succ g =>
      simp only [BinarySearchGo]
      by_cases hlt : start < end_
      · rw [if_pos hlt, if_pos hlt]
        by_cases ht : test ((start + end_) / 2) = true
        · rw [if_pos ht, if_pos ht]
          exact ih g ((start + end_) / 2 + 1) end_ (by omega) (by omega)
        · rw [if_neg ht, if_neg ht]
          exact ih g start ((start + end_) / 2) (by omega) (by omega)
      · rw [if_neg hlt, if_neg hlt]

/-- The result of the bisection loop stays within the initial closed
interval `[start, end_]`. -/
theorem binarySearchGo_bounds (test : Nat → Bool) :
    ∀ fuel start end_, start ≤ end_ →
      start ≤ BinarySearchGo test fuel start end_ ∧
        BinarySearchGo test fuel start end_ ≤ end_ := by
  intro fuel
  induction fuel with
  | zero =>
    intro start end_ h
    simp only [BinarySearchGo]
    omega
  | succ f ih =>
    intro start end_ h
    simp only [BinarySearchGo]
    by_cases hlt : start < end_
    · rw [if_pos hlt]
      by_cases ht : test ((start + end_) / 2) = true
      · rw [if_pos ht]
        have := ih ((start + end_) / 2 + 1) end_ (by omega)
        omega
      · rw [if_neg ht]
        have := ih start ((start + end_) / 2) (by omega)
        omega
    · rw [if_neg hlt]
      omega

/-- Core correctness of the bisection loop: on a monotone predicate with
cutoff `k` inside `[start, end_]`, the loop returns exactly `k`. -/
theorem binarySearchGo_cutoff (test : Nat → Bool) :
    ∀ fuel start end_ k, end_ - start ≤ fuel → start ≤ k → k ≤ end_ →
      (∀ i, start ≤ i → i < end_ → (test i = true ↔ i < k)) →
      BinarySearchGo test fuel start end_ = k := by
  intro fuel
  induction fuel with
  | zero =>
    intro start end_ k h1 hk1 hk2 _
    simp only [BinarySearchGo]
    omega
  | succ f ih =>
    intro start end_ k h1 hk1 hk2 hiff
    simp only [BinarySearchGo]
    by_cases hlt : start < end_
    · rw [if_pos hlt]
      by_cases ht : test ((start + end_) / 2) = true
      · rw [if_pos ht]
        have hmk : (start + end_) / 2 < k :=
          (hiff ((start + end_) / 2) (by omega) (by omega)).1 ht
        exact ih ((start + end_) / 2 + 1) end_ k (by omega) (by omega) hk2
          (fun i hi1 hi2 => hiff i (by omega) hi2)
      · rw [if_neg ht]
        have hkm : k ≤ (start + end_) / 2 := by
          by_contra hcon
          exact ht ((hiff ((start + end_) / 2) (by omega) (by omega)).2 (by omega))
        exact ih start ((start + end_) / 2) k (by omega) hk1 hkm
          (fun i hi1 hi2 => hiff i hi1 (by omega))
    · rw [if_neg hlt]
      omega

/-- The result component of the instrumented bisection loop coincides with
the plain loop. -/
theorem binarySearchProbesGo_fst (test : Nat → Bool) :
    ∀ fuel start end_,
      (BinarySearchProbesGo test fuel start end_).1 = BinarySearchGo test fuel start end_ := by
  intro fuel
  induction fuel with
  | zero => intro start end_; rfl
  | succ f ih =>
    intro start end_
    simp only [BinarySearchProbesGo, BinarySearchGo]
    by_cases hlt : start < end_
    · rw [if_pos hlt, if_pos hlt]
      by_cases ht : test ((start + end_) / 2) = true
      · rw [if_pos ht, if_pos ht]
        exact ih ((start + end_) / 2 + 1) end_
      · rw [if_neg ht, if_neg ht]
        exact ih start ((start + end_) / 2)
    · rw [if_neg hlt, if_neg hlt]

/-- Every index probed by the instrumented bisection loop lies in the
half-open search range `[start, end_)`. -/
theorem binarySearchProbesGo_mem (test : Nat → Bool) :
    ∀ fuel start end_ i, i ∈ (BinarySearchProbesGo test fuel start end_).2 →
      start ≤ i ∧ i < end_ := by
  intro fuel
  induction fuel with
  | zero => intro start end_ i hi; simp [BinarySearchProbesGo] at hi
  | succ f ih =>
    intro start end_ i hi
    simp only [BinarySearchProbesGo] at hi
    by_cases hlt : start < end_
    · rw [if_pos hlt] at hi
      by_cases ht : test ((start + end_) / 2) = true
      · rw [if_pos ht] at hi
        simp only [List.mem_cons] at hi
        rcases hi with hi | hi
        · omega
        · have := ih ((start + end_) / 2 + 1) end_ i hi
          omega
      · rw [if_neg ht] at hi
        simp only [List.mem_cons] at hi
        rcases hi with hi | hi
        · omega
        · have := ih start ((start + end_) / 2) i hi
          omega
    · rw [if_neg hlt] at hi
      simp at hi

/-- `BinarySearchProbes` and `BinarySearch` agree on the returned index. -/
theorem binarySearchProbes_fst (start end_ : Nat) (test : Nat → Bool) :
    (BinarySearchProbes start end_ test).1 = BinarySearch start end_ test :=
  binarySearchProbesGo_fst test (end_ - start) start end_

/-- `BinarySearch` returns the cutoff of any monotone predicate whose
cutoff lies in `[start, end_]`. -/
theorem binarySearch_cutoff (start end_ k : Nat) (test : Nat → Bool)
    (hk1 : start ≤ k) (hk2 : k ≤ end_)
    (hiff : ∀ i, start ≤ i → i < end_ → (test i = true ↔ i < k)) :
    BinarySearch start end_ test = k :=
  binarySearchGo_cutoff test (end_ - start) start end_ k (Nat.le_refl _) hk1 hk2 hiff

/-- If the predicate holds on the whole range, `BinarySearch` returns the
upper end. -/
theorem binarySearch_all_true (start end_ : Nat) (test : Nat → Bool)
    (hse : start ≤ end_) (h : ∀ i, start ≤ i → i < end_ → test i = true) :
    BinarySearch start end_ test = end_ :=
  binarySearch_cutoff start end_ end_ test hse (Nat.le_refl _)
    (fun i hi1 hi2 => ⟨fun _ => hi2, fun _ => h i hi1 hi2⟩)

/-- If the predicate fails on the whole range, `BinarySearch` returns the
lower end. -/
theorem binarySearch_all_false (start end_ : Nat) (test : Nat → Bool)
    (hse : start ≤ end_) (h : ∀ i, start ≤ i → i < end_ → test i = false) :
    BinarySearch start end_ test = start :=
  binarySearch_cutoff start end_ start test (Nat.le_refl _) hse
    (fun i hi1 hi2 =>
      ⟨fun ht => absurd ht (by simp [h i hi1 hi2]), fun hlt => absurd hlt (by omega)⟩)

/-- Claim C1: for every `N` and monotone predicate `f` on `[0,N)` with
cutoff `k` in `[0,N]` (`f i = true` for `i < k`, `f i = false` for
`k ≤ i < N`), `BinarySearch 0 N f` returns exactly `k`, including the
boundary cases `k = 0` and `k = N`. -/
theorem claim_C1_binarySearch_returns_cutoff (N k : Nat) (f : Nat → Bool)
    (hk : k ≤ N)
    (htrue : ∀ i, i < k → f i = true)
    (hfalse : ∀ i, k ≤ i → i < N → f i = false) :
    BinarySearch 0 N f = k := by
  apply binarySearch_cutoff 0 N k f (Nat.zero_le _) hk
  intro i _ hiN
  constructor
  · intro hf
    by_contra hcon
    rw [hfalse i (by omega) hiN] at hf
    exact Bool.noConfusion hf
  · intro hik
    exact htrue i hik

/-- Witness for C1 at `N = 5`, `k = 3`. -/
theorem claim_C1_witness :
    BinarySearch 0 5 (fun i => decide (i < 3)) = 3 :=
  claim_C1_binarySearch_returns_cutoff 5 3 (fun i => decide (i < 3))
    (by omega)
    (fun i hi => decide_eq_true hi)
    (fun i h1 _ => decide_eq_false (by omega))

/-- Claim C9: for `start ≤ end_` and any predicate, `BinarySearch`
terminates (it is a total function, and the fueled loop provably finishes
within `end_ - start` iterations, theorem `binarySearchGo_fuel`), returns
an index in the closed interval `[start, end_]`, and probes the predicate
only at indices in `[start, end_)`; when `start = end_` it returns `start`
and performs no probe at all. -/
theorem claim_C9_binarySearch_range_and_probes (start end_ : Nat) (test : Nat → Bool)
    (h : start ≤ end_) :
    (start ≤ BinarySearch start end_ test ∧ BinarySearch start end_ test ≤ end_)
    ∧ (BinarySearchProbes start end_ test).1 = BinarySearch start end_ test
    ∧ (∀ i ∈ (BinarySearchProbes start end_ test).2, start ≤ i ∧ i < end_)
    ∧ (start = end_ →
        BinarySearch start end_ test = start ∧ (BinarySearchProbes start end_ test).2 = []) := by
  refine ⟨binarySearchGo_bounds test (end_ - start) start end_ h,
    binarySearchProbes_fst start end_ test,
    fun i hi => binarySearchProbesGo_mem test (end_ - start) start end_ i hi,
    fun he => ?_⟩
  subst he
  constructor
  · show BinarySearchGo test (start - start) start start = start
    rw [Nat.sub_self]
    rfl
  · show (BinarySearchProbesGo test (start - start) start start).2 = []
    rw [Nat.sub_self]
    rfl

/-- Witness for C9 at `start = 2`, `end_ = 2` (the empty range). -/
theorem claim_C9_witness :
    ((2 ≤ BinarySearch 2 2 (fun i => decide (i < 3)) ∧
        BinarySearch 2 2 (fun i => decide (i < 3)) ≤ 2)
      ∧ (BinarySearchProbes 2 2 (fun i => decide (i < 3))).1 =
          BinarySearch 2 2 (fun i => decide (i < 3))
      ∧ (∀ i ∈ (BinarySearchProbes 2 2 (fun i => decide (i < 3))).2, 2 ≤ i ∧ i < 2)
      ∧ (2 = 2 →
          BinarySearch 2 2 (fun i => decide (i < 3)) = 2 ∧
            (BinarySearchProbes 2 2 (fun i => decide (i < 3))).2 = [])) :=
  claim_C9_binarySearch_range_and_probes 2 2 (fun i => decide (i < 3)) (Nat.le_refl 2)

/-- Every mandatory pass occurring in the scanned suffix survives the
filter of `FilterPasses`, whatever the cutoff. -/
theorem filterPasses_enumFrom_mandatory (c : Nat) (p : String) (hm : p ∈ MANDATORY_PASSES) :
    ∀ (l : List String) (n : Nat), p ∈ l →
      p ∈ (((List.enumFrom n l).filter
          (fun ip => MANDATORY_PASSES.contains ip.2 || decide (ip.1 < c))).map Prod.snd) := by
  intro l
  induction l with
  | nil => intro n hp; simp at hp
  | cons a t ih =>
    intro n hp
    rcases List.mem_cons.1 hp with hpa | hpt
    · subst hpa
      rw [show List.enumFrom n (p :: t) = (n, p) :: List.enumFrom (n + 1) t from rfl]
      rw [List.filter_cons_of_pos (by simp; exact Or.inl hm)]
      simp
    · have htail := ih (n + 1) hpt
      rw [show List.enumFrom n (a :: t) = (n, a) :: List.enumFrom (n + 1) t from rfl]
      by_cases hkeep : (MANDATORY_PASSES.contains a || decide (n < c)) = true
      · rw [List.filter_cons_of_pos (by simpa using hkeep)]
        simpa using Or.inr (by simpa using htail)
      · rw [List.filter_cons_of_neg (by simpa using hkeep)]
        exact htail

/-- The filtered-and-projected pass list is a sublist (order-preserving
subset) of the scanned suffix. -/
theorem filterPasses_enumFrom_sublist (c : Nat) :
    ∀ (l : List String) (n : Nat),
      ((((List.enumFrom n l).filter
          (fun ip => MANDATORY_PASSES.contains ip.2 || decide (ip.1 < c))).map
        Prod.snd)).Sublist l := by
  intro l
  induction l with
  | nil => intro n; simp
  | cons a t ih =>
    intro n
    rw [show List.enumFrom n (a :: t) = (n, a) :: List.enumFrom (n + 1) t from rfl]
    by_cases hkeep : (MANDATORY_PASSES.contains a || decide (n < c)) = true
    · rw [List.filter_cons_of_pos (by simpa using hkeep)]
      simpa using List.Sublist.cons₂ a (ih (n + 1))
    · rw [List.filter_cons_of_neg (by simpa using hkeep)]
      exact List.Sublist.cons a (ih (n + 1))

/-- Every element of the scanned suffix whose absolute index is below the
cutoff survives the filter of `FilterPasses`. -/
theorem filterPasses_enumFrom_index (c : Nat) :
    ∀ (l : List String) (n i : Nat) (hi : i < l.length), n + i < c →
      l.get ⟨i, hi⟩ ∈ (((List.enumFrom n l).filter
          (fun ip => MANDATORY_PASSES.contains ip.2 || decide (ip.1 < c))).map Prod.snd) := by
  intro l
  induction l with
  | nil => intro n i hi; simp at hi
  | cons a t ih =>
    intro n i hi hic
    rw [show List.enumFrom n (a :: t) = (n, a) :: List.enumFrom (n + 1) t from rfl]
    cases i with
    | zero =>
      rw [List.filter_cons_of_pos (by simp; exact Or.inr (by omega))]
      simp
    | succ j =>
      have hj : j < t.length := by simpa using hi
      have htail := ih (n + 1) j hj (by omega)
      have hget : (a :: t).get ⟨j + 1, hi⟩ = t.get ⟨j, hj⟩ := rfl
      rw [hget]
      by_cases hkeep : (MANDATORY_PASSES.contains a || decide (n < c)) = true
      · rw [List.filter_cons_of_pos (by simpa using hkeep)]
        simpa using Or.inr (by simpa using htail)
      · rw [List.filter_cons_of_neg (by simpa using hkeep)]
        exact htail

/-- Claim C2: for every pass list and cutoff in `[0, length]`,
`FilterPasses` contains every mandatory pass present in the list, is a
sublist of the list (subset preserving relative order), and contains
every pass whose index is strictly below the cutoff. -/
theorem claim_C2_filterPasses_spec (passes : List String) (cutoff : Nat)
    (_hcut : cutoff ≤ passes.length) :
    (∀ p, p ∈ passes → p ∈ MANDATORY_PASSES → p ∈ FilterPasses passes cutoff)
    ∧ (FilterPasses passes cutoff).Sublist passes
    ∧ (∀ i (hi : i < passes.length), i < cutoff →
        passes.get ⟨i, hi⟩ ∈ FilterPasses passes cutoff) := by
  refine ⟨?_, ?_, ?_⟩
  · intro p hp hm
    exact filterPasses_enumFrom_mandatory cutoff p hm passes 0 hp
  · exact filterPasses_enumFrom_sublist cutoff passes 0
  · intro i hi hic
    exact filterPasses_enumFrom_index cutoff passes 0 i hi (by omega)

/-- Witness for C2 on a concrete pass list containing one mandatory pass
and cutoff 1. -/
theorem claim_C2_witness :
    ((∀ p, p ∈ ["a", "pc_relative_fixups_x86", "b"] → p ∈ MANDATORY_PASSES →
        p ∈ FilterPasses ["a", "pc_relative_fixups_x86", "b"] 1)
      ∧ (FilterPasses ["a", "pc_relative_fixups_x86", "b"] 1).Sublist
          ["a", "pc_relative_fixups_x86", "b"]
      ∧ (∀ i (hi : i < (["a", "pc_relative_fixups_x86", "b"] : List String).length),
          i < 1 →
          (["a", "pc_relative_fixups_x86", "b"] : List String).get ⟨i, hi⟩ ∈
            FilterPasses ["a", "pc_relative_fixups_x86", "b"] 1)) :=
  claim_C2_filterPasses_spec ["a", "pc_relative_fixups_x86", "b"] 1 (by simp)

/-- Claim C3: for every execution result `(o, e, r)` the environment
produces for a probe, `Test` returns true if and only if the exit code is
non-zero or the captured stdout equals the configured reference output;
in particular a non-zero exit code always scores as passing, whatever the
output. -/
theorem claim_C3_test_classification (t : Testable) (ms ps : Option (List String))
    (o e : String) (r : Int) (h : t.run ms ps = (o, e, r)) :
    (t.Test ms ps = true ↔ (r ≠ 0 ∨ some o = t.correct_output))
    ∧ (r ≠ 0 → t.Test ms ps = true) := by
  constructor
  · simp [Testable.Test, h]
  · intro hr
    simp [Testable.Test, h, hr]

/-- Concrete testable for the C3 witness: exit code 1, stdout differing
from the reference output. -/
def testableC3w : Testable :=
  ⟨fun _ _ => ("out", "err", 1), some "ref"⟩

/-- Witness for C3: the crashing probe (exit code 1) scores as passing
even though its stdout differs from the reference output. -/
theorem claim_C3_witness :
    ((testableC3w.Test none none = true ↔ ((1 : Int) ≠ 0 ∨ some "out" = testableC3w.correct_output))
      ∧ ((1 : Int) ≠ 0 → testableC3w.Test none none = true)) :=
  claim_C3_test_classification testableC3w none none "out" "err" 1 rfl

/-- Claim C10: when no reference output is configured
(`correct_output = None`), `Test` returns true exactly when the exit code
is non-zero; a run that completes with exit code 0 is always scored as
failing, whatever its stdout. -/
theorem claim_C10_test_without_reference (t : Testable) (ms ps : Option (List String))
    (o e : String) (r : Int) (hnone : t.correct_output = none)
    (h : t.run ms ps = (o, e, r)) :
    (t.Test ms ps = true ↔ r ≠ 0) ∧ (r = 0 → t.Test ms ps = false) := by
  constructor
  · simp [Testable.Test, h, hnone]
  · intro hr
    simp [Testable.Test, h, hnone, hr]

/-- Concrete testable for the C10 witness: no reference output, exit
code 0. -/
def testableC10w : Testable :=
  ⟨fun _ _ => ("anything", "err", 0), none⟩

/-- Witness for C10: with no reference output configured, a clean exit
(code 0) is scored as failing despite its stdout. -/
theorem claim_C10_witness :
    ((testableC10w.Test none none = true ↔ (0 : Int) ≠ 0)
      ∧ ((0 : Int) = 0 → testableC10w.Test none none = false)) :=
  claim_C10_test_without_reference testableC10w none none "anything" "err" 0 rfl rfl

/-- `GetAllMethods` only succeeds with a non-empty method list: on an
empty scrape it raises `FatalError` instead (bisection-search.py line
`if not match_methods: raise FatalError(...)`). -/
theorem getAllMethods_ok_ne_nil {t : Testable} {ms : List String}
    (h : Testable.GetAllMethods t = Except.ok ms) : ms ≠ [] := by
  simp only [Testable.GetAllMethods] at h
  split at h
  · exact Except.noConfusion h
  · rename_i hne
    injection h with h
    subst h
    exact hne

/-- The outcome component of the instrumented `BugSearchTrace` coincides
with `BugSearch`. -/
theorem bugSearchTrace_fst (t : Testable) : (BugSearchTrace t).1 = BugSearch t := by
  simp only [BugSearchTrace, BugSearch]
  cases hok : Testable.GetAllMethods t with
  | error e => rfl
  | ok ms =>
    simp only [binarySearchProbes_fst]
    by_cases h1 : BinarySearch 0 ms.length (fun mid => t.Test (some (ms.take mid)) none) =
        ms.length
    · rw [if_pos h1, if_pos h1]
    · rw [if_neg h1, if_neg h1]
      by_cases h0 : BinarySearch 0 ms.length (fun mid => t.Test (some (ms.take mid)) none) = 0
      · rw [if_pos h0, if_pos h0]
      · rw [if_neg h0, if_neg h0]
        cases hps : Testable.GetAllPassesForMethod t
            (ms.getD (BinarySearch 0 ms.length
              (fun mid => t.Test (some (ms.take mid)) none) - 1) "") with
        | error e => rfl
        | ok ps =>
          simp only [binarySearchProbes_fst]
          split
          · rfl
          · split
            · rfl
            · rfl

/-- Claim C5: when `Test` passes on the full method list (with the probe
monotone, as the search assumes, this makes the stage-one cutoff equal the
number of methods), `BugSearch` reports the no-bug outcome `(None, None)`
and never invokes stage two: the search trace contains no pass-list
retrieval and no pass-restricted probe. -/
theorem claim_C5_full_pass_no_stage_two (t : Testable) (ms : List String)
    (hok : Testable.GetAllMethods t = Except.ok ms)
    (hmono : ∀ i j, i ≤ j → j ≤ ms.length →
        t.Test (some (ms.take j)) none = true → t.Test (some (ms.take i)) none = true)
    (hfull : t.Test (some ms) none = true) :
    BugSearch t = BugSearchOutcome.found none none
    ∧ ∀ ev ∈ (BugSearchTrace t).2, ev.isStageTwo = false := by
  have hall : ∀ i, i ≤ ms.length → t.Test (some (ms.take i)) none = true := by
    intro i hi
    apply hmono i ms.length hi (Nat.le_refl _)
    rw [List.take_length]
    exact hfull
  have hcut : BinarySearch 0 ms.length (fun mid => t.Test (some (ms.take mid)) none) =
      ms.length :=
    binarySearch_all_true 0 ms.length _ (Nat.zero_le _) (fun i _ hi2 => hall i (by omega))
  have hfst : (BinarySearchProbes 0 ms.length
      (fun mid => t.Test (some (ms.take mid)) none)).1 = ms.length := by
    rw [binarySearchProbes_fst]
    exact hcut
  constructor
  · simp only [BugSearch, hok, hcut]
    simp
  · intro ev hev
    simp only [BugSearchTrace, hok, hfst, if_pos rfl] at hev
    rcases List.mem_cons.1 hev with hg | hp
    · subst hg
      rfl
    · rcases List.mem_map.1 hp with ⟨i, _, hi2⟩
      subst hi2
      rfl

/-- Concrete testable for the C5 witness: one method, every probe exits
with code 1 and hence passes. -/
def testableC5w : Testable :=
  ⟨fun _ _ => ("", "Building m0\n", 1), none⟩

/-- Witness for C5. -/
theorem claim_C5_witness :
    (BugSearch testableC5w = BugSearchOutcome.found none none
      ∧ ∀ ev ∈ (BugSearchTrace testableC5w).2, ev.isStageTwo = false) :=
  claim_C5_full_pass_no_stage_two testableC5w ["m0"] rfl (fun _ _ _ _ _ => rfl) rfl

/-- Claim C6: when the stage-one cutoff is 0 — with a monotone probe this
is exactly the situation where `Test([])` is false (the fault manifests
with zero methods compiled), which also forces `Test(all_methods)` false —
`BugSearch` raises the fatal outside-compiler error instead of returning
any `(method, pass)` result. -/
theorem claim_C6_cutoff_zero_fatal (t : Testable) (ms : List String)
    (hok : Testable.GetAllMethods t = Except.ok ms)
    (hmono : ∀ i j, i ≤ j → j ≤ ms.length →
        t.Test (some (ms.take j)) none = true → t.Test (some (ms.take i)) none = true)
    (hempty : t.Test (some []) none = false) :
    BugSearch t = BugSearchOutcome.fatal
      "Testable fails with no methods compiled. Perhaps issue lies outside of compiler." := by
  have hallf : ∀ i, i ≤ ms.length → t.Test (some (ms.take i)) none = false := by
    intro i hi
    cases hx : t.Test (some (ms.take i)) none with
    | false => rfl
    | true =>
      have h0 := hmono 0 i (Nat.zero_le _) hi hx
      rw [List.take_zero, hempty] at h0
      exact Bool.noConfusion h0
  have hcut : BinarySearch 0 ms.length (fun mid => t.Test (some (ms.take mid)) none) = 0 :=
    binarySearch_all_false 0 ms.length _ (Nat.zero_le _) (fun i _ hi2 => hallf i (by omega))
  have hne : ms.length ≠ 0 := by
    have := getAllMethods_ok_ne_nil hok
    simpa using this
  simp only [BugSearch, hok, hcut]
  rw [if_neg (by omega)]
  simp

/-- Concrete testable for the C6 witness: one method, every probe exits
cleanly with stdout differing from the reference output, hence fails. -/
def testableC6w : Testable :=
  ⟨fun _ _ => ("", "Building m0\n", 0), some "x"⟩

/-- Witness for C6. -/
theorem claim_C6_witness :
    BugSearch testableC6w = BugSearchOutcome.fatal
      "Testable fails with no methods compiled. Perhaps issue lies outside of compiler." :=
  claim_C6_cutoff_zero_fatal testableC6w ["m0"] rfl (fun _ _ _ _ h => h) rfl

/-- Execution oracle for the synthetic testable of claim C4:
the unrestricted run reports four methods `m0..m3` on stderr; a
method-restricted run reports passes `p0, p1, p2` and exits non-zero
(test passes) exactly when fewer than two methods are compiled; a
pass-restricted run exits non-zero (test passes) exactly when the pass
list is empty. -/
def runC4 : Option (List String) → Option (List String) → String × String × Int
  | none, _ => ("", "Building m0\nBuilding m1\nBuilding m2\nBuilding m3\n", 0)
  | some ms, none =>
    ("", "Starting pass: p0\nStarting pass: p1\nStarting pass: p2\n",
     if ms.length < 2 then 1 else 0)
  | some _, some ps => ("", "", if ps.length = 0 then 1 else 0)

/-- Synthetic testable of claim C4: probing methods `[0:i]` fails exactly
for `i ≥ 2`, and probing pass prefixes of `m1` fails exactly for `j ≥ 1`. -/
def testableC4 : Testable := ⟨runC4, none⟩

/-- Claim C4: on the synthetic testable with methods `[m0, m1, m2, m3]`
where the prefix probe fails from `i = 2` on, and passes `[p0, p1, p2]`
for `m1` (none mandatory) where the pass-prefix probe fails from `j = 1`
on, `BugSearch` reports method `m1` and pass `p0`. -/
theorem claim_C4_synthetic_search :
    Testable.GetAllMethods testableC4 = Except.ok ["m0", "m1", "m2", "m3"]
    ∧ Testable.GetAllPassesForMethod testableC4 "m1" = Except.ok ["p0", "p1", "p2"]
    ∧ BugSearch testableC4 = BugSearchOutcome.found (some "m1") (some "p0") := by
  exact ⟨rfl, rfl, rfl⟩

/-- Execution oracle for the C7 counterexample: two methods `m0, m1`; the
empty-prefix probe passes (exit 1), any other method-restricted probe
fails (exit 0, no reference output), and the pass scrape for the
implicated method yields only the non-pass `builder`, so the filtered
pass list is empty. -/
def runC7c : Option (List String) → Option (List String) → String × String × Int
  | none, _ => ("", "Building m0\nBuilding m1\n", 0)
  | some [], none => ("", "", 1)
  | some _, none => ("", "Starting pass: builder\n", 0)
  | some _, some _ => ("", "", 0)

/-- Testable on which the stage-two cutoff equals the (zero) length of the
implicated method pass list, yet `BugSearch` returns a normal result. -/
def testableC7c : Testable := ⟨runC7c, none⟩

/-- Counterexample to claim C7 as stated: on `testableC7c` the implicated
method is `m0`, its filtered pass list is empty, and the stage-two cutoff
(0) therefore equals the pass-list length; but `BugSearch` returns
`(m0, None)` through the `faulty_pass_idx == 0` branch instead of
signalling the assertion failure the claim requires for a cutoff equal to
the pass-list length. -/
theorem claim_C7_counterexample :
    Testable.GetAllMethods testableC7c = Except.ok ["m0", "m1"]
    ∧ BinarySearch 0 (List.length ["m0", "m1"])
        (fun mid => testableC7c.Test (some (List.take mid ["m0", "m1"])) none) = 1
    ∧ Testable.GetAllPassesForMethod testableC7c "m0" = Except.ok []
    ∧ BinarySearch 0 (List.length ([] : List String))
        (fun mid => testableC7c.Test (some ["m0"]) (some (FilterPasses [] mid))) =
      List.length ([] : List String)
    ∧ BugSearch testableC7c = BugSearchOutcome.found (some "m0") none
    ∧ BugSearch testableC7c ≠ BugSearchOutcome.assertFail "Method must fail for some passes." :=
  ⟨rfl, rfl, rfl, rfl, rfl, by decide⟩

/-- Claim C7 (amended): when stage one implicates a method
(`0 < k1 < length ms`) and the stage-two search over its pass list `ps`
returns cutoff `k2`, then: if `k2 = 0` (including the case of an empty
pass list, where the cutoff necessarily equals both `0` and the length)
`BugSearch` returns the implicated method with no pass; and if `k2`
equals the pass-list length with `k2 ≠ 0`, `BugSearch` signals the
internal assertion failure instead of a normal result.  (The amendment
adds `k2 ≠ 0` to the assertion branch: the `k2 = 0` branch of the source
is checked first, as the counterexample with an empty pass list shows.) -/
theorem claim_C7_stage_two_boundaries (t : Testable) (ms ps : List String) (k1 k2 : Nat)
    (hok : Testable.GetAllMethods t = Except.ok ms)
    (hk1 : BinarySearch 0 ms.length (fun mid => t.Test (some (ms.take mid)) none) = k1)
    (h0 : 0 < k1) (hN : k1 < ms.length)
    (hps : Testable.GetAllPassesForMethod t (ms.getD (k1 - 1) "") = Except.ok ps)
    (hk2 : BinarySearch 0 ps.length
        (fun mid => t.Test (some [ms.getD (k1 - 1) ""]) (some (FilterPasses ps mid))) = k2) :
    (k2 = 0 → BugSearch t = BugSearchOutcome.found (some (ms.getD (k1 - 1) "")) none)
    ∧ (k2 = ps.length → k2 ≠ 0 →
        BugSearch t = BugSearchOutcome.assertFail "Method must fail for some passes.") := by
  simp only [BugSearch, hok, hk1]
  rw [if_neg (by omega), if_neg (by omega)]
  simp only [hps, hk2]
  constructor
  · intro h2
    rw [if_pos h2]
  · intro h2 hne0
    rw [if_neg hne0, if_pos h2]

/-- Execution oracle for the C7 witness: two methods; the implicated
method `m0` has the single optional pass `p0`, and the probe restricted to
the empty filtered pass list passes (exit 1), driving the stage-two cutoff
to the full pass-list length. -/
def runC7w : Option (List String) → Option (List String) → String × String × Int
  | none, _ => ("", "Building m0\nBuilding m1\n", 0)
  | some [], none => ("", "", 1)
  | some _, none => ("", "Starting pass: p0\n", 0)
  | some _, some _ => ("", "", 1)

/-- Testable for the C7 witness. -/
def testableC7w : Testable := ⟨runC7w, none⟩

/-- Witness for the amended C7: on `testableC7w` the stage-two cutoff is
1, the length of the non-empty pass list `[p0]`, and `BugSearch` signals
the assertion failure. -/
theorem claim_C7_witness :
    ((1 = 0 →
        BugSearch testableC7w =
          BugSearchOutcome.found (some ((["m0", "m1"] : List String).getD (1 - 1) "")) none)
      ∧ (1 = List.length ["p0"] → (1 : Nat) ≠ 0 →
          BugSearch testableC7w =
            BugSearchOutcome.assertFail "Method must fail for some passes.")) :=
  claim_C7_stage_two_boundaries testableC7w ["m0", "m1"] ["p0"] 1 1 rfl rfl
    (by omega) (by simp) rfl rfl

/-- Claim C8: every invocation of `RunCommand`, in both the host and the
device environment variant, performs exactly one compiled-code cache
invalidation, and that invalidation is the first action of the trace —
in particular it precedes the execution of the command. -/
theorem claim_C8_invalidate_before_run (henv : HostTestEnvModel) (cmd : String)
    (denv : DeviceTestEnvModel) (dcmd : List String) :
    ((henv.RunCommand cmd).2 =
        [EnvAction.invalidateCache, EnvAction.execCommand cmd]
      ∧ (henv.RunCommand cmd).2.count EnvAction.invalidateCache = 1
      ∧ (henv.RunCommand cmd).2.head? = some EnvAction.invalidateCache)
    ∧ ((denv.RunCommand dcmd).2 =
        [EnvAction.invalidateCache,
         EnvAction.execCommand (DeviceWrapCommand denv.device_env_path dcmd)]
      ∧ (denv.RunCommand dcmd).2.count EnvAction.invalidateCache = 1
      ∧ (denv.RunCommand dcmd).2.head? = some EnvAction.invalidateCache) :=
  ⟨⟨rfl, by simp [HostTestEnvModel.RunCommand], rfl⟩,
   ⟨rfl, by simp [DeviceTestEnvModel.RunCommand], rfl⟩⟩
